import Mathlib

/-
Verification development for the Amanzi multi-physics framework core:
the State/Evaluator dependency-graph engine and the hierarchical
multi-process-coupler (MPC) time-stepping protocol.

The C++ sources are shallowly embedded: machine doubles become exact
rationals, tree vectors become lists of sub-vectors, fallible code
returns Except, and stateful evaluator updates thread an explicit
record of values, flags and request sets.
-/

/- ===================================================================
   Part 1. Definitions
   =================================================================== -/

/- -------------------------------------------------------------------
   1a. MPCStrong delegation over a tree-shaped solution vector
       (src/pks/mpc_pk/MPCStrong.hh).

   A TreeVector at the composite level is a list of sub-vectors; the
   method SubVector(i) returns null when the index is out of range,
   which models a solution-vector tree whose branching is narrower
   than the PK tree.  Child PKs are opaque total functions.
   ------------------------------------------------------------------- -/

/-- The message of the fatal structural error thrown at every delegation
point of MPCStrong when a sub-vector is missing. -/
def mpcStructureErr : String := "MPC: vector structure does not match PK structure"

/-- TreeVector.SubVector: the i-th sub-vector, none when absent. -/
def subVector : List α → Nat → Option α
  | [], _ => none
  | x :: _, 0 => some x
  | _ :: xs, i + 1 => subVector xs i

/-- MPCStrong.Functional, looping over sub-PKs from index i: pulls the
old, new and residual sub-vectors (the old one only when the old vector
is present), throwing the structural error when one is null, then
delegates to the child functional. -/
def mpcFunctionalAux (pks : List (Option α → α → α → β)) (uOld : Option (List α))
    (uNew g : List α) (i : Nat) : Except String (List β) :=
  match pks with
  | [] => .ok []
  | p :: ps => do
    let pkUOld : Option α ←
      match uOld with
      | none => pure none
      | some l =>
        match subVector l i with
        | none => Except.error mpcStructureErr
        | some v => pure (some v)
    let pkUNew : α ←
      match subVector uNew i with
      | none => Except.error mpcStructureErr
      | some v => pure v
    let pkG : α ←
      match subVector g i with
      | none => Except.error mpcStructureErr
      | some v => pure v
    let rs ← mpcFunctionalAux ps uOld uNew g (i + 1)
    pure (p pkUOld pkUNew pkG :: rs)

/-- MPCStrong.Functional from the first sub-PK. -/
def mpcFunctional (pks : List (Option α → α → α → β)) (uOld : Option (List α))
    (uNew g : List α) : Except String (List β) :=
  mpcFunctionalAux pks uOld uNew g 0

/-- MPCStrong.ApplyPreconditioner, looping over sub-PKs from index i. -/
def mpcApplyPreconditionerAux (pks : List (α → α → β)) (u pu : List α)
    (i : Nat) : Except String (List β) :=
  match pks with
  | [] => .ok []
  | p :: ps => do
    let pkU : α ←
      match subVector u i with
      | none => Except.error mpcStructureErr
      | some v => pure v
    let pkPu : α ←
      match subVector pu i with
      | none => Except.error mpcStructureErr
      | some v => pure v
    let rs ← mpcApplyPreconditionerAux ps u pu (i + 1)
    pure (p pkU pkPu :: rs)

/-- MPCStrong.ApplyPreconditioner from the first sub-PK. -/
def mpcApplyPreconditioner (pks : List (α → α → β)) (u pu : List α) :
    Except String (List β) :=
  mpcApplyPreconditionerAux pks u pu 0

/-- MPCStrong.UpdatePreconditioner, looping over sub-PKs from index i. -/
def mpcUpdatePreconditionerAux (pks : List (ℚ → α → ℚ → β)) (t : ℚ)
    (up : List α) (hstep : ℚ) (i : Nat) : Except String (List β) :=
  match pks with
  | [] => .ok []
  | p :: ps => do
    let pkUp : α ←
      match subVector up i with
      | none => Except.error mpcStructureErr
      | some v => pure v
    let rs ← mpcUpdatePreconditionerAux ps t up hstep (i + 1)
    pure (p t pkUp hstep :: rs)

/-- MPCStrong.UpdatePreconditioner from the first sub-PK. -/
def mpcUpdatePreconditioner (pks : List (ℚ → α → ℚ → β)) (t : ℚ)
    (up : List α) (hstep : ℚ) : Except String (List β) :=
  mpcUpdatePreconditionerAux pks t up hstep 0

/-- MPCStrong.ErrorNorm, looping over sub-PKs from index i while taking
the max of the child norms, starting from the accumulator. -/
def mpcErrorNormAux (pks : List (α → α → ℚ)) (u du : List α) (i : Nat)
    (norm : ℚ) : Except String ℚ :=
  match pks with
  | [] => .ok norm
  | p :: ps => do
    let pkU : α ←
      match subVector u i with
      | none => Except.error mpcStructureErr
      | some v => pure v
    let pkDu : α ←
      match subVector du i with
      | none => Except.error mpcStructureErr
      | some v => pure v
    mpcErrorNormAux ps u du (i + 1) (max norm (p pkU pkDu))

/-- MPCStrong.ErrorNorm; the source initializes the norm to 0.0. -/
def mpcErrorNorm (pks : List (α → α → ℚ)) (u du : List α) : Except String ℚ :=
  mpcErrorNormAux pks u du 0 0

/-- MPCStrong.IsAdmissible, looping over sub-PKs from index i.  The
result distinguishes the three exits of the source: a thrown structural
error, a `return false` at the first inadmissible child (ok (some
false)), and the fall through the end of the value-returning function
after the loop, which emits no decision at all (ok none). -/
def mpcIsAdmissibleAux (pks : List (α → Bool)) (u : List α) (i : Nat) :
    Except String (Option Bool) :=
  match pks with
  | [] => .ok none
  | p :: ps =>
    match subVector u i with
    | none => .error mpcStructureErr
    | some ui =>
      if p ui then mpcIsAdmissibleAux ps u (i + 1)
      else .ok (some false)

/-- MPCStrong.IsAdmissible from the first sub-PK. -/
def mpcIsAdmissible (pks : List (α → Bool)) (u : List α) :
    Except String (Option Bool) :=
  mpcIsAdmissibleAux pks u 0

/- -------------------------------------------------------------------
   1b. MPCStrong timestep bookkeeping (src/pks/mpc_pk/MPCStrong.hh).
   ------------------------------------------------------------------- -/

/-- MPCStrong.AdvanceStep: the time integrator returns a failure flag
and a recommended step dt_solver; on success the source keeps the old
recommendation only under the guard dt_solver < dt_ && dt_solver >=
dt_, otherwise (and on failure) it stores dt_solver. -/
def mpcStrongAdvanceStep (dt : ℚ) (timeStep : ℚ → Bool × ℚ) : Bool × ℚ :=
  let fail := (timeStep dt).1
  let dtSolver := (timeStep dt).2
  if fail = false then
    if dtSolver < dt ∧ dtSolver ≥ dt then (fail, dt)
    else (fail, dtSolver)
  else (fail, dtSolver)

/-- The timestep state of an MPCStrong instance: the member dt_. -/
structure MPCStrongSt where
  dt : ℚ

/-- MPCStrong.get_dt: returns the stored dt_. -/
def mpcStrongGetDt (s : MPCStrongSt) : ℚ := s.dt

/-- MPCStrong.set_dt. -/
def mpcStrongSetDt (s : MPCStrongSt) (dt : ℚ) : MPCStrongSt := { s with dt := dt }

/-- MPCStrong.Setup, timestep part: after the sub-PKs are set up the
source executes dt_ = get_dt(), a virtual call that resolves to
MPCStrong.get_dt and therefore reads dt_ back; the proposals of the
children (childDts) are never consulted. -/
def mpcStrongSetup (s : MPCStrongSt) (childDts : List ℚ) : MPCStrongSt :=
  { s with dt := mpcStrongGetDt s }

/-- Modelled from the spec: the composite get_dt required by the PK
contract is the minimum over the children proposed timesteps (the base
class MPC_PK.hh is not part of the sources at hand). -/
def specCompositeGetDt : List ℚ → Option ℚ
  | [] => none
  | d :: ds =>
    match specCompositeGetDt ds with
    | none => some d
    | some m => some (min d m)

/- -------------------------------------------------------------------
   1c. ShallowWater_PK failure signalling
       (src/pks/shallow_water/ShallowWater_PK.cc).
   ------------------------------------------------------------------- -/

/-- ShallowWater_PK.ErrorDiagnostics_: reports true exactly when the
water depth h in cell c is negative (the other arguments only feed the
log message). -/
def swErrorDiagnostics (c : Nat) (h bathymetry ht : ℚ) : Bool := decide (h < 0)

/-- The failure flag returned by ShallowWater_PK.AdvanceStep: the local
variable failed is initialized to false at the top of the function and
is returned unmodified at the end; no statement of the body assigns to
it, whatever nodal depths the step produced. -/
def swAdvanceStepFailed (hNew : List ℚ) : Bool := false

/- -------------------------------------------------------------------
   1d. TreeOperator constructor check (src/operators/TreeOperator.cc).

   Modelled from the spec: a tree-shaped vector space is a node that
   may hold data and carries an ordered list of child spaces (the
   TreeVectorSpace class itself is not part of the sources at hand;
   nothing in it ties holding data to being childless).
   ------------------------------------------------------------------- -/

/-- A tree vector space: a data slot plus ordered children. -/
inductive TVS where
  | mk (hasData : Bool) (children : List TVS)

/-- Whether the node holds data (Data() != null). -/
def TVS.hasData : TVS → Bool
  | .mk d _ => d

/-- The children of the node. -/
def TVS.children : TVS → List TVS
  | .mk _ c => c

/-- The TreeOperator constructor assertions: the root must hold no data
and every child must hold data; nothing else about the shape of the
space is inspected. -/
def treeOperatorCtorCheck (t : TVS) : Bool :=
  !t.hasData && t.children.all (fun c => c.hasData)

/- -------------------------------------------------------------------
   1e. State field registry: Require (src/state/State.hh, lines
       204-229).  The RecordSet internals (RequireRecord, SetType) are
       modelled from the spec, RecordSet.hh not being among the
       sources at hand.
   ------------------------------------------------------------------- -/

/-- The element types a field can be required with. -/
inductive DataType where
  | tDouble
  | tInt
  | tCompositeVector
deriving DecidableEq

/-- Modelled from the spec: a RecordSet owns the records of one field
across all tags it was required with and enforces a single element type
for the field. -/
structure RecordSetR where
  fieldname : String
  dtype : Option DataType
  recs : List (String × String)
deriving DecidableEq

/-- Modelled from the spec: RecordSet.RequireRecord registers a record
for the tag with the owner when none is present; requiring the same tag
again must not duplicate storage. -/
def requireRecord (rs : RecordSetR) (tag owner : String) : RecordSetR :=
  if tag ∈ rs.recs.map Prod.fst then rs
  else { rs with recs := rs.recs ++ [(tag, owner)] }

/-- Modelled from the spec: RecordSet.SetType fixes the element type of
the field, failing when a conflicting type is requested for an already
registered field. -/
def setType (rs : RecordSetR) (t : DataType) : Except String RecordSetR :=
  match rs.dtype with
  | none => .ok { rs with dtype := some t }
  | some t0 =>
    if t0 = t then .ok rs
    else .error ("conflicting type for field " ++ rs.fieldname)

/-- The registry map data_ of State: field name to stored value. -/
abbrev KeyedList (γ : Type) := List (String × γ)

/-- Keys.hasKey on a registry map. -/
def hasKey (d : KeyedList γ) (k : String) : Bool := d.any fun p => p.1 = k

/-- Lookup of the entry stored under a key. -/
def lookupKey : KeyedList γ → String → Option γ
  | [], _ => none
  | (k0, v) :: rest, k => if k0 = k then some v else lookupKey rest k

/-- data_.at(k) combined with storing back the transformed value:
applies f to the entry under k, propagating its failure. -/
def mapAtKey : KeyedList γ → String → (γ → Except String γ) →
    Except String (KeyedList γ)
  | [], _, _ => .error "key not found"
  | (k0, v) :: rest, k, f =>
    if k0 = k then
      match f v with
      | .error e => .error e
      | .ok v2 => .ok ((k0, v2) :: rest)
    else
      match mapAtKey rest k f with
      | .error e => .error e
      | .ok rest2 => .ok ((k0, v) :: rest2)

/-- The registry of RecordSets. -/
abbrev StateData := KeyedList RecordSetR

/-- State.Require: emplaces a fresh RecordSet when the field is absent,
then requires the record for the tag and sets the element type. -/
def stateRequire (d : StateData) (t : DataType) (fieldname tag owner : String) :
    Except String StateData :=
  let d1 := if hasKey d fieldname then d
            else d ++ [(fieldname, ⟨fieldname, none, []⟩)]
  mapAtKey d1 fieldname (fun rs => setType (requireRecord rs tag owner) t)

/- -------------------------------------------------------------------
   1f. State data access and ownership (src/state/State.hh, lines
       238-250 and 337-376).  The Record internals (AssertOwnerOrDie,
       the RecordSet accessors) are modelled from the spec, Record.hh
       and RecordSet.hh not being among the sources at hand.
   ------------------------------------------------------------------- -/

/-- Modelled from the spec: a Record wraps one typed datum together
with the identifier of the single owner permitted to mutate it. -/
structure RecordR (α : Type) where
  owner : String
  initialized : Bool
  value : α

/-- Modelled from the spec: Record.AssertOwnerOrDie, the fatal
ownership violation when the given owner does not match. -/
def assertOwnerOrDie (r : RecordR α) (owner : String) : Except String Unit :=
  if owner = r.owner then .ok () else .error ("ownership violation: " ++ owner)

/-- The records of one field, per tag, with their stored values. -/
structure RecordSetV (α : Type) where
  fieldname : String
  vrecs : List (String × RecordR α)

/-- RecordSet.GetRecord: the record at the tag, a fatal lookup error
when absent. -/
def getRecord (rs : RecordSetV α) (tag : String) : Except String (RecordR α) :=
  match lookupKey rs.vrecs tag with
  | some r => .ok r
  | none => .error ("record not found for tag " ++ tag)

/-- Modelled from the spec: RecordSet.GetW, owner-checked mutable
access to the stored value. -/
def recordSetGetW (rs : RecordSetV α) (tag owner : String) : Except String α :=
  match getRecord rs tag with
  | .error e => .error e
  | .ok r =>
    match assertOwnerOrDie r owner with
    | .error e => .error e
    | .ok _ => .ok r.value

/-- Modelled from the spec: RecordSet.Get, read-only access taking no
owner. -/
def recordSetGet (rs : RecordSetV α) (tag : String) : Except String α :=
  match getRecord rs tag with
  | .error e => .error e
  | .ok r => .ok r.value

/-- Modelled from the spec: RecordSet.Set, owner-checked write of a new
value into the record at the tag. -/
def recordSetSet (rs : RecordSetV α) (tag owner : String) (v : α) :
    Except String (RecordSetV α) :=
  match getRecord rs tag with
  | .error e => .error e
  | .ok r =>
    match assertOwnerOrDie r owner with
    | .error e => .error e
    | .ok _ =>
      .ok { rs with vrecs :=
        rs.vrecs.map (fun p => if p.1 = tag then (p.1, { p.2 with value := v }) else p) }

/-- data_.at(fieldname): the RecordSet of a field, a fatal lookup error
when the field was never required. -/
def findRecordSet (d : KeyedList (RecordSetV α)) (fieldname : String) :
    Except String (RecordSetV α) :=
  match lookupKey d fieldname with
  | some rs => .ok rs
  | none => .error ("field not found: " ++ fieldname)

/-- State.GetW: data_.at(fieldname) then RecordSet.GetW(tag, owner). -/
def stateGetW (d : KeyedList (RecordSetV α)) (fieldname tag owner : String) :
    Except String α :=
  match findRecordSet d fieldname with
  | .error e => .error e
  | .ok rs => recordSetGetW rs tag owner

/-- State.Get: data_.at(fieldname) then RecordSet.Get(tag); no owner
argument exists on the read-only path. -/
def stateGet (d : KeyedList (RecordSetV α)) (fieldname tag : String) :
    Except String α :=
  match findRecordSet d fieldname with
  | .error e => .error e
  | .ok rs => recordSetGet rs tag

/-- State.GetRecordW: fetches the record of (fieldname, tag) and runs
r.AssertOwnerOrDie(owner) before handing the record out. -/
def stateGetRecordW (d : KeyedList (RecordSetV α)) (fieldname tag owner : String) :
    Except String (RecordR α) :=
  match findRecordSet d fieldname with
  | .error e => .error e
  | .ok rs =>
    match getRecord rs tag with
    | .error e => .error e
    | .ok r =>
      match assertOwnerOrDie r owner with
      | .error e => .error e
      | .ok _ => .ok r

/-- State.Set: data_.at(fieldname)->Set(tag, owner, data), storing the
transformed RecordSet back into the registry. -/
def stateSet (d : KeyedList (RecordSetV α)) (fieldname tag owner : String)
    (v : α) : Except String (KeyedList (RecordSetV α)) :=
  mapAtKey d fieldname (fun rs => recordSetSet rs tag owner v)

/- -------------------------------------------------------------------
   1g. The evaluator dependency DAG of the State test
       (src/state/test/state_evaluators_dag_double.cc).

   The eight fields and their Evaluate_ and EvaluatePartialDerivative_
   bodies are taken from the test.  Every value arising in the
   scenario is a small integer, so the double-valued fields are
   embedded exactly as integers.  The Update and UpdateDerivative
   machinery of EvaluatorPrimary and EvaluatorSecondaryMonotype is
   modelled from the spec (those evaluator classes are not among the
   sources at hand): Update recurses over the declared dependencies
   first and recomputes when a dependency changed or the primary
   change flag is set; UpdateDerivative first updates the primal
   value, then recurses into the dependencies that transitively
   depend on the differentiation variable, combining with the chain
   rule and short-circuiting zero branches; requester identifiers
   deduplicate repeated requests by the same consumer.
   ------------------------------------------------------------------- -/

/-- The eight fields fa..fh of the DAG test. -/
inductive FKey where
  | fa | fb | fc | fd | fe | ff | fg | fh
deriving DecidableEq

/-- The dependency lists declared by the evaluator constructors:
A depends on B, C, E, H; C on D, G; D on G; E on D, F; F on G; H on F;
the primaries B and G have none. -/
def deps : FKey → List FKey
  | .fa => [.fb, .fc, .fe, .fh]
  | .fc => [.fd, .fg]
  | .fd => [.fg]
  | .fe => [.fd, .ff]
  | .ff => [.fg]
  | .fh => [.ff]
  | .fb => []
  | .fg => []

/-- B and G carry EvaluatorPrimary, the others secondary evaluators. -/
def isPrimary : FKey → Bool
  | .fb => true
  | .fg => true
  | _ => false

/-- The Evaluate_ bodies: A = 2B + C*E*H, C = 2D + G, D = 2G, E = D*F,
F = 2G, H = 2F; a primary evaluates to its stored value. -/
def evaluate (k : FKey) (v : FKey → ℤ) : ℤ :=
  match k with
  | .fa => 2 * v .fb + v .fc * v .fe * v .fh
  | .fc => 2 * v .fd + v .fg
  | .fd => 2 * v .fg
  | .fe => v .fd * v .ff
  | .ff => 2 * v .fg
  | .fh => 2 * v .ff
  | .fb => v .fb
  | .fg => v .fg

/-- The EvaluatePartialDerivative_ bodies of the six secondary
evaluators; a pair without a declared partial contributes zero. -/
def pderiv (k wrt : FKey) (v : FKey → ℤ) : ℤ :=
  match k, wrt with
  | .fa, .fb => 2
  | .fa, .fc => v .fe * v .fh
  | .fa, .fe => v .fc * v .fh
  | .fa, .fh => v .fc * v .fe
  | .fc, .fd => 2
  | .fc, .fg => 1
  | .fd, .fg => 2
  | .fe, .fd => v .ff
  | .fe, .ff => v .fd
  | .ff, .fg => 2
  | .fh, .ff => 2
  | _, _ => 0

/-- Transitive dependency between fields, bounded by a fuel that
exceeds the depth of the eight-field DAG. -/
def dependsOn : Nat → FKey → FKey → Bool
  | 0, _, _ => false
  | fuel + 1, k, wrt => (deps k).any fun d => d = wrt || dependsOn fuel d wrt

/-- Modelled from the spec: the opaque identifier of the calling
consumer passed to Update and UpdateDerivative, used to avoid redundant
recomputation for the same consumer; the test uses the key names and
an external main caller, and a derivative update requests its own
primal update under a distinct identity. -/
inductive Requester where
  | main
  | key (k : FKey)
  | derivOf (k wrt : FKey)
deriving DecidableEq

/-- The mutable evaluator state threaded by the protocol: stored field
values, stored derivative slots, the external change flags of the
primaries, and the request sets for values and for derivatives. -/
structure DagState where
  val : FKey → ℤ
  dval : FKey → FKey → ℤ
  changedFlag : FKey → Bool
  requests : FKey → List Requester
  derivRequests : FKey → List (Requester × FKey)

/-- Write one derivative slot. -/
def setDval (f : FKey → FKey → ℤ) (k wrt : FKey) (x : ℤ) : FKey → FKey → ℤ :=
  fun a b => if a = k ∧ b = wrt then x else f a b

/-- Modelled from the spec: Update(state, requester).  A primary
reports changed when its external flag is set (clearing the flag and
resetting its request set) or when the requester has not seen the
current value yet.  A secondary first updates every dependency in
declared order; if any reports changed it recomputes its value and
resets its request set, otherwise it reports changed only to a
requester that has not seen the current value. -/
def update : Nat → FKey → Requester → DagState → Bool × DagState
  | 0, _, _, s => (false, s)
  | fuel + 1, k, requester, s =>
    if isPrimary k then
      if s.changedFlag k then
        (true, { s with changedFlag := Function.update s.changedFlag k false,
                        requests := Function.update s.requests k [requester] })
      else if requester ∈ s.requests k then
        (false, s)
      else
        (true, { s with requests :=
          Function.update s.requests k (requester :: s.requests k) })
    else
      let dres := (deps k).foldl
        (fun (acc : Bool × DagState) d =>
          let r := update fuel d (.key k) acc.2
          (acc.1 || r.1, r.2))
        (false, s)
      let s1 := dres.2
      if dres.1 then
        (true, { s1 with val := Function.update s1.val k (evaluate k s1.val),
                         requests := Function.update s1.requests k [requester] })
      else if requester ∈ s1.requests k then
        (false, s1)
      else
        (true, { s1 with requests :=
          Function.update s1.requests k (requester :: s1.requests k) })

/-- Modelled from the spec: UpdateDerivative(state, requester, wrt).
The derivative of a primary with respect to itself is one, with
respect to anything else zero.  A secondary first updates its primal
value, then updates the derivatives of the dependencies that
transitively depend on wrt (skipping zero branches); if anything
changed it recombines the stored partials with the chain rule,
summing partial(k, d) * d(d)/d(wrt) over its dependencies, and resets
its derivative request set. -/
def updateDeriv : Nat → FKey → Requester → FKey → DagState → Bool × DagState
  | 0, _, _, _, s => (false, s)
  | fuel + 1, k, requester, wrt, s =>
    if isPrimary k then
      if (requester, wrt) ∈ s.derivRequests k then
        (false, s)
      else
        (true, { s with
          dval := setDval s.dval k wrt (if k = wrt then 1 else 0),
          derivRequests := Function.update s.derivRequests k
            ((requester, wrt) :: s.derivRequests k) })
    else
      let ures := update fuel k (.derivOf k wrt) s
      let dres := (deps k).foldl
        (fun (acc : Bool × DagState) d =>
          if d = wrt || dependsOn 8 d wrt then
            let r := updateDeriv fuel d (.key k) wrt acc.2
            (acc.1 || r.1, r.2)
          else acc)
        (false, ures.2)
      let s1 := dres.2
      if ures.1 || dres.1 then
        (true, { s1 with
          dval := setDval s1.dval k wrt (((deps k).map (fun d =>
            if d = wrt then pderiv k d s1.val
            else if dependsOn 8 d wrt then pderiv k d s1.val * s1.dval d wrt
            else 0)).sum),
          derivRequests := Function.update s1.derivRequests k [(requester, wrt)] })
      else if (requester, wrt) ∈ s1.derivRequests k then
        (false, s1)
      else
        (true, { s1 with derivRequests :=
          Function.update s1.derivRequests k ((requester, wrt) :: s1.derivRequests k) })

/-- EvaluatorPrimary.SetChanged: mark a primary as externally changed
without touching its stored value. -/
def setChanged (k : FKey) (s : DagState) : DagState :=
  { s with changedFlag := Function.update s.changedFlag k true }

/-- The state built by the make_state fixture: primaries B = 2 and
G = 3, freshly initialized (their change flags set), every other value
and every derivative slot still unset. -/
def dagInit : DagState where
  val := fun k => match k with
    | .fb => 2
    | .fg => 3
    | _ => 0
  dval := fun _ _ => 0
  changedFlag := fun k => isPrimary k
  requests := fun _ => []
  derivRequests := fun _ => []

/-- Enough fuel to traverse the eight-field DAG from any node. -/
def dagFuel : Nat := 12

/-- Update(A, main), the first call of the DAG_TWO_FIELDS test. -/
def dagStep1 : Bool × DagState := update dagFuel .fa .main dagInit

/-- UpdateDerivative(A, fa, fb) after step 1. -/
def dagStep2 : Bool × DagState := updateDeriv dagFuel .fa (.key .fa) .fb dagStep1.2

/-- UpdateDerivative(A, fa, fg) after step 2. -/
def dagStep3 : Bool × DagState := updateDeriv dagFuel .fa (.key .fa) .fg dagStep2.2

/-- UpdateDerivative(E, fe, fg) after step 3. -/
def dagStep4 : Bool × DagState := updateDeriv dagFuel .fe (.key .fe) .fg dagStep3.2

/-- The repeated UpdateDerivative(A, fa, fg) with no primary changed. -/
def dagStep5 : Bool × DagState := updateDeriv dagFuel .fa (.key .fa) .fg dagStep4.2

/-- UpdateDerivative(A, fa, fg) after SetChanged on the primary B. -/
def dagStep6 : Bool × DagState :=
  updateDeriv dagFuel .fa (.key .fa) .fg (setChanged .fb dagStep5.2)

/- ===================================================================
   Part 2. Theorems
   =================================================================== -/

/-- C9: MPCStrong.AdvanceStep always stores the dt_solver produced by
the TimeStep call, whether the step failed or not, because the guard
dt_solver < dt_ && dt_solver >= dt_ of the keep-the-previous-
recommendation branch is unsatisfiable. -/
theorem mpc_strong_advance_step_dt :
    (∀ (dt : ℚ) (timeStep : ℚ → Bool × ℚ),
      (mpcStrongAdvanceStep dt timeStep).2 = (timeStep dt).2 ∧
      (mpcStrongAdvanceStep dt timeStep).1 = (timeStep dt).1) ∧
    (∀ a b : ℚ, ¬(a < b ∧ a ≥ b)) := by
  constructor
  · intro dt ts
    unfold mpcStrongAdvanceStep
    constructor
    · dsimp only
      split
      · split
        · next h2 => exact absurd h2.1 (not_lt.mpr h2.2)
        · rfl
      · rfl
    · dsimp only
      split
      · split
        · rfl
        · rfl
      · rfl
  · intro a b h
    exact absurd h.1 (not_lt.mpr h.2)

/-- Witness for C9 at dt = 1 with an integrator returning dt_solver = 1/2. -/
theorem mpc_strong_advance_step_dt_witness :
    (mpcStrongAdvanceStep 1 (fun _ => (false, 1/2))).2
      = ((fun (_ : ℚ) => ((false : Bool), (1/2 : ℚ))) 1).2 ∧
    ¬((1 : ℚ) < 2 ∧ (1 : ℚ) ≥ 2) :=
  ⟨(mpc_strong_advance_step_dt.1 1 (fun _ => (false, 1/2))).1,
    mpc_strong_advance_step_dt.2 1 2⟩

/-- C2: evaluation of the code at the failing input.  MPCStrong.Setup
leaves dt_ at its prior value (here 7) because dt_ = get_dt() reads dt_
back, while the intended composite timestep over children proposing
1/2, 1/5, 4/5 is the minimum 1/5. -/
theorem mpc_strong_get_dt_not_min :
    mpcStrongGetDt (mpcStrongSetup ⟨7⟩ [1/2, 1/5, 4/5]) = 7 ∧
    specCompositeGetDt [1/2, 1/5, 4/5] = some (1/5) ∧
    ((7 : ℚ) ≠ 1/5) := by
  refine ⟨rfl, ?_, by norm_num⟩
  simp only [specCompositeGetDt]
  norm_num

/-- C1: evaluation of the code.  With every child admissible the loop
of MPCStrong.IsAdmissible completes and control falls off the end of
the value-returning function without emitting a decision (ok none, not
ok (some true)); with an inadmissible child the function returns false
at the first such child. -/
theorem mpc_is_admissible_fallthrough :
    mpcIsAdmissible [fun (_ : ℚ) => true, fun _ => true] [10, 20] = .ok none ∧
    mpcIsAdmissible [fun (_ : ℚ) => false, fun _ => true] [10, 20] = .ok (some false) ∧
    mpcIsAdmissible [fun (_ : ℚ) => true, fun _ => false, fun _ => true] [10, 20, 30]
      = .ok (some false) := by
  refine ⟨rfl, rfl, rfl⟩

/-- C8: evaluation of the code at the failing input.  For a step whose
new nodal depth is -1, ErrorDiagnostics_ recognizes the negative depth,
yet the failed flag returned by ShallowWater_PK.AdvanceStep is false:
the flag is never set and ErrorDiagnostics_ is never invoked by the
advance. -/
theorem shallow_water_negative_depth_not_failed :
    swErrorDiagnostics 0 (-1) 0 (-1) = true ∧
    swAdvanceStepFailed [-1] = false := by
  refine ⟨by decide, rfl⟩

/-- C10 counterexample: a space whose root holds no data and whose only
child holds data passes the TreeOperator constructor assertions even
though that child is not a leaf (it has one child of its own). -/
theorem tree_operator_nonleaf_child_accepted :
    treeOperatorCtorCheck (TVS.mk false [TVS.mk true [TVS.mk true []]]) = true ∧
    (TVS.mk false [TVS.mk true [TVS.mk true []]]).children.map
      (fun c => c.children.length) = [1] := by
  refine ⟨rfl, rfl⟩

/-- C10 amended: the TreeOperator constructor assertions pass exactly
when the root holds no data and every child holds data; the children
of the children are never inspected, so leafness is not enforced. -/
theorem tree_operator_ctor_check_characterization :
    ∀ t : TVS, treeOperatorCtorCheck t = true ↔
      (t.hasData = false ∧ ∀ c ∈ t.children, c.hasData = true) := by
  intro t
  simp [treeOperatorCtorCheck, Bool.and_eq_true, Bool.not_eq_true',
    List.all_eq_true]

/-- Witness for the C10 amended theorem on a flat two-level space. -/
theorem tree_operator_ctor_check_characterization_witness :
    treeOperatorCtorCheck (TVS.mk false [TVS.mk true []]) = true := by
  apply (tree_operator_ctor_check_characterization (TVS.mk false [TVS.mk true []])).mpr
  constructor
  · rfl
  · intro c hc
    simp only [TVS.children] at hc
    have hce := List.mem_singleton.mp hc
    subst hce
    rfl

/-- subVector returns none exactly when the index is out of range. -/
theorem subVector_eq_none_iff (l : List α) (i : Nat) :
    subVector l i = none ↔ l.length ≤ i := by
  induction l generalizing i with
  | nil => simp [subVector]
  | cons x xs ih =>
    cases i with
    | zero => simp [subVector]
    | succ j =>
      simp only [subVector, ih, List.length_cons]
      omega

/-- subVector returns a value at every in-range index. -/
theorem subVector_lt (l : List α) (i : Nat) (h : i < l.length) :
    ∃ v, subVector l i = some v := by
  cases hv : subVector l i with
  | none => exact absurd ((subVector_eq_none_iff l i).mp hv) (by omega)
  | some v => exact ⟨v, rfl⟩

/-- Binding a structural error propagates it unchanged. -/
theorem except_error_bind (ev : String) (f : α → Except String β) :
    (Except.error ev >>= f) = Except.error ev := rfl

/-- Mapping over a structural error propagates it unchanged. -/
theorem except_map_error (f : α → β) (ev : String) :
    (f <$> (Except.error ev : Except String α)) = Except.error ev := rfl

/-- The Functional loop from index i throws the structural error as soon
as one of the three vectors lacks a sub-vector for a remaining sub-PK. -/
theorem mpcFunctionalAux_error (pks : List (Option α → α → α → β))
    (uOld : Option (List α)) (uNew g : List α) (i : Nat)
    (hiNew : i ≤ uNew.length) (hiG : i ≤ g.length)
    (hiOld : ∀ l, uOld = some l → i ≤ l.length)
    (h : uNew.length < i + pks.length ∨ g.length < i + pks.length ∨
      ∃ l, uOld = some l ∧ l.length < i + pks.length) :
    mpcFunctionalAux pks uOld uNew g i = .error mpcStructureErr := by
  induction pks generalizing i with
  | nil =>
    exfalso
    simp only [List.length_nil, Nat.add_zero] at h
    rcases h with h | h | ⟨l, hl, hless⟩
    · omega
    · omega
    · have h2 := hiOld l hl
      omega
  | cons p ps ih =>
    simp only [mpcFunctionalAux, List.length_cons] at h ⊢
    have hrec : i + 1 ≤ uNew.length → i + 1 ≤ g.length →
        (uNew.length < (i + 1) + ps.length ∨ g.length < (i + 1) + ps.length ∨
        ∃ l, uOld = some l ∧ l.length < (i + 1) + ps.length) →
        (∀ l, uOld = some l → i + 1 ≤ l.length) →
        mpcFunctionalAux ps uOld uNew g (i + 1) = .error mpcStructureErr := by
      intro hbN hbG hd hold
      exact ih (i + 1) hbN hbG hold hd
    cases hOld : uOld with
    | some l =>
      have hil0 := hiOld l hOld
      rcases Nat.lt_or_ge i l.length with hil | hil
      · obtain ⟨vO, hvO⟩ := subVector_lt l i hil
        rcases Nat.lt_or_ge i uNew.length with hiN | hiN
        · obtain ⟨vN, hvN⟩ := subVector_lt uNew i hiN
          rcases Nat.lt_or_ge i g.length with hiG2 | hiG2
          · obtain ⟨vG, hvG⟩ := subVector_lt g i hiG2
            have hd : uNew.length < (i + 1) + ps.length ∨ g.length < (i + 1) + ps.length ∨
                ∃ l2, uOld = some l2 ∧ l2.length < (i + 1) + ps.length := by
              rcases h with h | h | ⟨l2, hl2, hless⟩
              · exact Or.inl (by omega)
              · exact Or.inr (Or.inl (by omega))
              · exact Or.inr (Or.inr ⟨l2, hl2, by omega⟩)
            have hold : ∀ l2, uOld = some l2 → i + 1 ≤ l2.length := by
              intro l2 hl2
              rw [hOld] at hl2
              injection hl2 with he
              subst he
              omega
            have hr := hrec (by omega) (by omega) hd hold
            rw [hOld] at hr
            simp [hvO, hvN, hvG, hr, except_map_error]
          · have hg : subVector g i = none := (subVector_eq_none_iff g i).mpr hiG2
            simp [hvO, hvN, hg, except_error_bind]
        · have hn : subVector uNew i = none := (subVector_eq_none_iff uNew i).mpr hiN
          simp [hvO, hn, except_error_bind]
      · have hl2 : subVector l i = none := (subVector_eq_none_iff l i).mpr hil
        simp [hl2, except_error_bind]
    | none =>
      rcases Nat.lt_or_ge i uNew.length with hiN | hiN
      · obtain ⟨vN, hvN⟩ := subVector_lt uNew i hiN
        rcases Nat.lt_or_ge i g.length with hiG2 | hiG2
        · obtain ⟨vG, hvG⟩ := subVector_lt g i hiG2
          have hd : uNew.length < (i + 1) + ps.length ∨ g.length < (i + 1) + ps.length ∨
              ∃ l2, uOld = some l2 ∧ l2.length < (i + 1) + ps.length := by
            rcases h with h | h | ⟨l2, hl2, hless⟩
            · exact Or.inl (by omega)
            · exact Or.inr (Or.inl (by omega))
            · rw [hOld] at hl2
              exact absurd hl2 (by simp)
          have hold : ∀ l2, uOld = some l2 → i + 1 ≤ l2.length := by
            intro l2 hl2
            rw [hOld] at hl2
            exact absurd hl2 (by simp)
          have hr := hrec (by omega) (by omega) hd hold
          rw [hOld] at hr
          simp [hvN, hvG, hr, except_map_error]
        · have hg : subVector g i = none := (subVector_eq_none_iff g i).mpr hiG2
          simp [hvN, hg, except_error_bind]
      · have hn : subVector uNew i = none := (subVector_eq_none_iff uNew i).mpr hiN
        simp [hn, except_error_bind]

/-- The Functional loop from index i succeeds when every remaining
sub-PK finds its sub-vectors. -/
theorem mpcFunctionalAux_ok (pks : List (Option α → α → α → β))
    (uOld : Option (List α)) (uNew g : List α) (i : Nat)
    (h1 : i + pks.length ≤ uNew.length) (h2 : i + pks.length ≤ g.length)
    (h3 : ∀ l, uOld = some l → i + pks.length ≤ l.length) :
    ∃ rs, mpcFunctionalAux pks uOld uNew g i = .ok rs := by
  induction pks generalizing i with
  | nil => exact ⟨[], rfl⟩
  | cons p ps ih =>
    simp only [List.length_cons] at h1 h2 h3
    obtain ⟨vN, hvN⟩ := subVector_lt uNew i (by omega)
    obtain ⟨vG, hvG⟩ := subVector_lt g i (by omega)
    obtain ⟨rs, hrs⟩ := ih (i + 1) (by omega) (by omega)
      (by intro l hl; have := h3 l hl; omega)
    cases hOld : uOld with
    | some l =>
      obtain ⟨vO, hvO⟩ := subVector_lt l i (by have := h3 l hOld; omega)
      rw [hOld] at hrs
      exact ⟨p (some vO) vN vG :: rs, by simp [mpcFunctionalAux, hvO, hvN, hvG, hrs]⟩
    | none =>
      rw [hOld] at hrs
      exact ⟨p none vN vG :: rs, by simp [mpcFunctionalAux, hvN, hvG, hrs]⟩

/-- The ApplyPreconditioner loop from index i throws the structural
error as soon as u or Pu lacks a sub-vector for a remaining sub-PK. -/
theorem mpcApplyPreconditionerAux_error (pks : List (α → α → β)) (u pu : List α)
    (i : Nat) (hiU : i ≤ u.length) (hiPu : i ≤ pu.length)
    (h : u.length < i + pks.length ∨ pu.length < i + pks.length) :
    mpcApplyPreconditionerAux pks u pu i = .error mpcStructureErr := by
  induction pks generalizing i with
  | nil =>
    exfalso
    simp only [List.length_nil, Nat.add_zero] at h
    omega
  | cons p ps ih =>
    simp only [mpcApplyPreconditionerAux, List.length_cons] at h ⊢
    rcases Nat.lt_or_ge i u.length with hiN | hiN
    · obtain ⟨vU, hvU⟩ := subVector_lt u i hiN
      rcases Nat.lt_or_ge i pu.length with hiP | hiP
      · obtain ⟨vP, hvP⟩ := subVector_lt pu i hiP
        have hr := ih (i + 1) (by omega) (by omega) (by omega)
        simp [hvU, hvP, hr, except_map_error]
      · have hp : subVector pu i = none := (subVector_eq_none_iff pu i).mpr hiP
        simp [hvU, hp, except_error_bind]
    · have hn : subVector u i = none := (subVector_eq_none_iff u i).mpr hiN
      simp [hn, except_error_bind]

/-- The ApplyPreconditioner loop from index i succeeds when every
remaining sub-PK finds its sub-vectors. -/
theorem mpcApplyPreconditionerAux_ok (pks : List (α → α → β)) (u pu : List α)
    (i : Nat) (h1 : i + pks.length ≤ u.length) (h2 : i + pks.length ≤ pu.length) :
    ∃ rs, mpcApplyPreconditionerAux pks u pu i = .ok rs := by
  induction pks generalizing i with
  | nil => exact ⟨[], rfl⟩
  | cons p ps ih =>
    simp only [List.length_cons] at h1 h2
    obtain ⟨vU, hvU⟩ := subVector_lt u i (by omega)
    obtain ⟨vP, hvP⟩ := subVector_lt pu i (by omega)
    obtain ⟨rs, hrs⟩ := ih (i + 1) (by omega) (by omega)
    exact ⟨p vU vP :: rs, by simp [mpcApplyPreconditionerAux, hvU, hvP, hrs]⟩

/-- The UpdatePreconditioner loop from index i throws the structural
error as soon as up lacks a sub-vector for a remaining sub-PK. -/
theorem mpcUpdatePreconditionerAux_error (pks : List (ℚ → α → ℚ → β)) (t : ℚ)
    (up : List α) (hstep : ℚ) (i : Nat) (hiUp : i ≤ up.length)
    (h : up.length < i + pks.length) :
    mpcUpdatePreconditionerAux pks t up hstep i = .error mpcStructureErr := by
  induction pks generalizing i with
  | nil =>
    exfalso
    simp only [List.length_nil, Nat.add_zero] at h
    omega
  | cons p ps ih =>
    simp only [mpcUpdatePreconditionerAux, List.length_cons] at h ⊢
    rcases Nat.lt_or_ge i up.length with hiN | hiN
    · obtain ⟨vU, hvU⟩ := subVector_lt up i hiN
      have hr := ih (i + 1) (by omega) (by omega)
      simp [hvU, hr, except_map_error]
    · have hn : subVector up i = none := (subVector_eq_none_iff up i).mpr hiN
      simp [hn, except_error_bind]

/-- The ErrorNorm loop from index i throws the structural error as soon
as u or du lacks a sub-vector for a remaining sub-PK, whatever the
accumulated norm. -/
theorem mpcErrorNormAux_error (pks : List (α → α → ℚ)) (u du : List α)
    (i : Nat) (norm : ℚ) (hiU : i ≤ u.length) (hiDu : i ≤ du.length)
    (h : u.length < i + pks.length ∨ du.length < i + pks.length) :
    mpcErrorNormAux pks u du i norm = .error mpcStructureErr := by
  induction pks generalizing i norm with
  | nil =>
    exfalso
    simp only [List.length_nil, Nat.add_zero] at h
    omega
  | cons p ps ih =>
    simp only [mpcErrorNormAux, List.length_cons] at h ⊢
    rcases Nat.lt_or_ge i u.length with hiN | hiN
    · obtain ⟨vU, hvU⟩ := subVector_lt u i hiN
      rcases Nat.lt_or_ge i du.length with hiD | hiD
      · obtain ⟨vD, hvD⟩ := subVector_lt du i hiD
        have hr := ih (i + 1) (max norm (p vU vD)) (by omega) (by omega) (by omega)
        simp [hvU, hvD, hr]
      · have hd : subVector du i = none := (subVector_eq_none_iff du i).mpr hiD
        simp [hvU, hd, except_error_bind]
    · have hn : subVector u i = none := (subVector_eq_none_iff u i).mpr hiN
      simp [hn, except_error_bind]

/-- The IsAdmissible loop from index i throws the structural error as
soon as u lacks a sub-vector for a remaining sub-PK, provided no
earlier child vetoes the step. -/
theorem mpcIsAdmissibleAux_error (pks : List (α → Bool)) (u : List α) (i : Nat)
    (hAdm : ∀ p ∈ pks, ∀ v, p v = true) (hiU : i ≤ u.length)
    (h : u.length < i + pks.length) :
    mpcIsAdmissibleAux pks u i = .error mpcStructureErr := by
  induction pks generalizing i with
  | nil =>
    exfalso
    simp only [List.length_nil, Nat.add_zero] at h
    omega
  | cons p ps ih =>
    simp only [mpcIsAdmissibleAux, List.length_cons] at h ⊢
    rcases Nat.lt_or_ge i u.length with hiN | hiN
    · obtain ⟨vU, hvU⟩ := subVector_lt u i hiN
      have hp : p vU = true := hAdm p (List.mem_cons_self p ps) vU
      have hr := ih (i + 1) (fun q hq => hAdm q (List.mem_cons_of_mem p hq))
        (by omega) (by omega)
      simp [hvU, hp, hr]
    · have hn : subVector u i = none := (subVector_eq_none_iff u i).mpr hiN
      simp [hn]

/-- C5: at every delegation point of MPCStrong (Functional,
ApplyPreconditioner, UpdatePreconditioner, ErrorNorm, IsAdmissible) a
missing sub-vector makes the operation throw the fatal named structural
error instead of truncating, and matching structures delegate without a
structural error; an admissibility veto, by contrast, is reported as an
ordinary boolean value (ok (some false)), a different kind from the
thrown error. -/
theorem mpc_structure_mismatch_fatal :
    (∀ (α β : Type) (pks : List (Option α → α → α → β)) (uOld : Option (List α))
        (uNew g : List α),
      (uNew.length < pks.length ∨ g.length < pks.length ∨
        ∃ l, uOld = some l ∧ l.length < pks.length) →
      mpcFunctional pks uOld uNew g = .error mpcStructureErr) ∧
    (∀ (α β : Type) (pks : List (Option α → α → α → β)) (uOld : Option (List α))
        (uNew g : List α),
      pks.length ≤ uNew.length → pks.length ≤ g.length →
      (∀ l, uOld = some l → pks.length ≤ l.length) →
      ∃ rs, mpcFunctional pks uOld uNew g = .ok rs) ∧
    (∀ (α β : Type) (pks : List (α → α → β)) (u pu : List α),
      (u.length < pks.length ∨ pu.length < pks.length) →
      mpcApplyPreconditioner pks u pu = .error mpcStructureErr) ∧
    (∀ (α β : Type) (pks : List (α → α → β)) (u pu : List α),
      pks.length ≤ u.length → pks.length ≤ pu.length →
      ∃ rs, mpcApplyPreconditioner pks u pu = .ok rs) ∧
    (∀ (α β : Type) (pks : List (ℚ → α → ℚ → β)) (t : ℚ) (up : List α) (hstep : ℚ),
      up.length < pks.length →
      mpcUpdatePreconditioner pks t up hstep = .error mpcStructureErr) ∧
    (∀ (α : Type) (pks : List (α → α → ℚ)) (u du : List α),
      (u.length < pks.length ∨ du.length < pks.length) →
      mpcErrorNorm pks u du = .error mpcStructureErr) ∧
    (∀ (α : Type) (pks : List (α → Bool)) (u : List α),
      (∀ p ∈ pks, ∀ v, p v = true) → u.length < pks.length →
      mpcIsAdmissible pks u = .error mpcStructureErr) ∧
    (∀ (α : Type) (p : α → Bool) (ps : List (α → Bool)) (v : α) (u : List α),
      subVector u 0 = some v → p v = false →
      mpcIsAdmissible (p :: ps) u = .ok (some false)) := by
  refine ⟨?_, ?_, ?_, ?_, ?_, ?_, ?_, ?_⟩
  · intro α β pks uOld uNew g h
    exact mpcFunctionalAux_error pks uOld uNew g 0 (Nat.zero_le _) (Nat.zero_le _)
      (fun l _ => Nat.zero_le _) (by simpa using h)
  · intro α β pks uOld uNew g h1 h2 h3
    exact mpcFunctionalAux_ok pks uOld uNew g 0 (by simpa using h1) (by simpa using h2)
      (fun l hl => by simpa using h3 l hl)
  · intro α β pks u pu h
    exact mpcApplyPreconditionerAux_error pks u pu 0 (Nat.zero_le _) (Nat.zero_le _)
      (by simpa using h)
  · intro α β pks u pu h1 h2
    exact mpcApplyPreconditionerAux_ok pks u pu 0 (by simpa using h1) (by simpa using h2)
  · intro α β pks t up hstep h
    exact mpcUpdatePreconditionerAux_error pks t up hstep 0 (Nat.zero_le _)
      (by simpa using h)
  · intro α pks u du h
    exact mpcErrorNormAux_error pks u du 0 0 (Nat.zero_le _) (Nat.zero_le _)
      (by simpa using h)
  · intro α pks u hAdm h
    exact mpcIsAdmissibleAux_error pks u 0 hAdm (Nat.zero_le _) (by simpa using h)
  · intro α p ps v u hv hp
    simp [mpcIsAdmissible, mpcIsAdmissibleAux, hv, hp]

/-- Witness for C5 on one-child composites over rational sub-vectors. -/
theorem mpc_structure_mismatch_fatal_witness :
    mpcFunctional [fun (_ : Option ℚ) (_ : ℚ) (_ : ℚ) => (0 : ℚ)] none [] []
      = .error mpcStructureErr ∧
    (∃ rs, mpcFunctional [fun (_ : Option ℚ) (_ : ℚ) (_ : ℚ) => (0 : ℚ)] none [1] [2]
      = .ok rs) ∧
    mpcApplyPreconditioner [fun (_ : ℚ) (_ : ℚ) => (0 : ℚ)] [] [1]
      = .error mpcStructureErr ∧
    (∃ rs, mpcApplyPreconditioner [fun (_ : ℚ) (_ : ℚ) => (0 : ℚ)] [1] [2] = .ok rs) ∧
    mpcUpdatePreconditioner [fun (_ : ℚ) (_ : ℚ) (_ : ℚ) => (0 : ℚ)] 0 [] 1
      = .error mpcStructureErr ∧
    mpcErrorNorm [fun (_ : ℚ) (_ : ℚ) => (0 : ℚ)] [] [] = .error mpcStructureErr ∧
    mpcIsAdmissible [fun (_ : ℚ) => true] [] = .error mpcStructureErr ∧
    mpcIsAdmissible ((fun (_ : ℚ) => false) :: []) [5] = .ok (some false) := by
  refine ⟨?_, ?_, ?_, ?_, ?_, ?_, ?_, ?_⟩
  · exact mpc_structure_mismatch_fatal.1 ℚ ℚ _ none [] [] (Or.inl (by simp))
  · exact mpc_structure_mismatch_fatal.2.1 ℚ ℚ _ none [1] [2] (by simp) (by simp)
      (fun l hl => nomatch hl)
  · exact mpc_structure_mismatch_fatal.2.2.1 ℚ ℚ _ [] [1] (Or.inl (by simp))
  · exact mpc_structure_mismatch_fatal.2.2.2.1 ℚ ℚ _ [1] [2] (by simp) (by simp)
  · exact mpc_structure_mismatch_fatal.2.2.2.2.1 ℚ ℚ _ 0 [] 1 (by simp)
  · exact mpc_structure_mismatch_fatal.2.2.2.2.2.1 ℚ _ [] [] (Or.inl (by simp))
  · exact mpc_structure_mismatch_fatal.2.2.2.2.2.2.1 ℚ _ []
      (by
        intro p hp v
        have := List.mem_singleton.mp hp
        subst this
        rfl)
      (by simp)
  · exact mpc_structure_mismatch_fatal.2.2.2.2.2.2.2 ℚ _ [] 5 [5] rfl rfl

/-- A successful lookup implies the registry has the key. -/
theorem lookupKey_hasKey (d : KeyedList γ) (k : String) (v : γ)
    (h : lookupKey d k = some v) : hasKey d k = true := by
  induction d with
  | nil => simp [lookupKey] at h
  | cons p rest ih =>
    obtain ⟨k0, w⟩ := p
    simp only [lookupKey] at h
    by_cases hk : k0 = k
    · simp [hasKey, List.any_cons, hk]
    · simp only [if_neg hk] at h
      have hr := ih h
      simp only [hasKey, List.any_cons] at hr ⊢
      rw [hr, Bool.or_true]

/-- An absent key is not among the stored field names. -/
theorem hasKey_false_not_mem (d : KeyedList γ) (k : String)
    (h : hasKey d k = false) : k ∉ d.map Prod.fst := by
  intro hmem
  rw [List.mem_map] at hmem
  obtain ⟨p, hp, he⟩ := hmem
  have hne : ¬(p.1 = k) := by
    intro hq
    rw [hasKey, List.any_eq_false] at h
    exact absurd (by simpa using hq) (h p hp)
  exact hne he

/-- mapAtKey rewrites one entry in place: the field names are kept. -/
theorem mapAtKey_keys (d d2 : KeyedList γ) (k : String) (f : γ → Except String γ)
    (h : mapAtKey d k f = .ok d2) : d2.map Prod.fst = d.map Prod.fst := by
  induction d generalizing d2 with
  | nil => exact absurd h (by simp [mapAtKey])
  | cons p rest ih =>
    obtain ⟨k0, v⟩ := p
    simp only [mapAtKey] at h
    by_cases hk : k0 = k
    · rw [if_pos hk] at h
      cases hf : f v with
      | error e => rw [hf] at h; exact absurd h (by simp)
      | ok v2 =>
        rw [hf] at h
        injection h with h2
        subst h2
        simp
    · rw [if_neg hk] at h
      cases hr : mapAtKey rest k f with
      | error e => rw [hr] at h; exact absurd h (by simp)
      | ok rest2 =>
        rw [hr] at h
        injection h with h2
        subst h2
        simp [ih rest2 hr]

/-- A successful mapAtKey found the entry, transformed it successfully,
and stored the transformed entry under the same key. -/
theorem mapAtKey_lookup (d d2 : KeyedList γ) (k : String) (f : γ → Except String γ)
    (h : mapAtKey d k f = .ok d2) :
    ∃ v v2, lookupKey d k = some v ∧ f v = .ok v2 ∧ lookupKey d2 k = some v2 := by
  induction d generalizing d2 with
  | nil => exact absurd h (by simp [mapAtKey])
  | cons p rest ih =>
    obtain ⟨k0, v⟩ := p
    simp only [mapAtKey] at h
    by_cases hk : k0 = k
    · rw [if_pos hk] at h
      cases hf : f v with
      | error e => rw [hf] at h; exact absurd h (by simp)
      | ok v2 =>
        rw [hf] at h
        injection h with h2
        subst h2
        exact ⟨v, v2, by simp [lookupKey, hk], hf, by simp [lookupKey, hk]⟩
    · rw [if_neg hk] at h
      cases hr : mapAtKey rest k f with
      | error e => rw [hr] at h; exact absurd h (by simp)
      | ok rest2 =>
        rw [hr] at h
        injection h with h2
        subst h2
        obtain ⟨v1, v2, hl, hf, hl2⟩ := ih rest2 hr
        exact ⟨v1, v2, by simp [lookupKey, hk, hl], hf, by simp [lookupKey, hk, hl2]⟩

/-- When the transformation is a fixpoint on its own outputs, running
mapAtKey a second time leaves the registry unchanged. -/
theorem mapAtKey_fix (d d2 : KeyedList γ) (k : String) (f : γ → Except String γ)
    (hfix : ∀ v v2, f v = .ok v2 → f v2 = .ok v2)
    (h : mapAtKey d k f = .ok d2) : mapAtKey d2 k f = .ok d2 := by
  induction d generalizing d2 with
  | nil => exact absurd h (by simp [mapAtKey])
  | cons p rest ih =>
    obtain ⟨k0, v⟩ := p
    simp only [mapAtKey] at h
    by_cases hk : k0 = k
    · rw [if_pos hk] at h
      cases hf : f v with
      | error e => rw [hf] at h; exact absurd h (by simp)
      | ok v2 =>
        rw [hf] at h
        injection h with h2
        subst h2
        simp [mapAtKey, hk, hfix v v2 hf]
    · rw [if_neg hk] at h
      cases hr : mapAtKey rest k f with
      | error e => rw [hr] at h; exact absurd h (by simp)
      | ok rest2 =>
        rw [hr] at h
        injection h with h2
        subst h2
        simp [mapAtKey, hk, ih rest2 hr]

/-- When the transformation fails on the stored entry, mapAtKey fails
with that error. -/
theorem mapAtKey_error_of_lookup (d : KeyedList γ) (k : String)
    (f : γ → Except String γ) (v : γ) (e : String)
    (hl : lookupKey d k = some v) (he : f v = .error e) :
    mapAtKey d k f = .error e := by
  induction d with
  | nil => simp [lookupKey] at hl
  | cons p rest ih =>
    obtain ⟨k0, w⟩ := p
    simp only [lookupKey] at hl
    by_cases hk : k0 = k
    · rw [if_pos hk] at hl
      injection hl with hl2
      subst hl2
      simp [mapAtKey, hk, he]
    · rw [if_neg hk] at hl
      simp [mapAtKey, hk, ih hl]

/-- RequireRecord never changes the element type of the field. -/
theorem requireRecord_dtype (rs : RecordSetR) (tag owner : String) :
    (requireRecord rs tag owner).dtype = rs.dtype := by
  unfold requireRecord
  split <;> rfl

/-- After RequireRecord the tag is present. -/
theorem requireRecord_mem (rs : RecordSetR) (tag owner : String) :
    tag ∈ (requireRecord rs tag owner).recs.map Prod.fst := by
  unfold requireRecord
  split
  · assumption
  · simp

/-- RequireRecord of an already present tag changes nothing. -/
theorem requireRecord_of_mem (rs : RecordSetR) (tag owner : String)
    (h : tag ∈ rs.recs.map Prod.fst) : requireRecord rs tag owner = rs := by
  unfold requireRecord
  simp [h]

/-- A successful SetType leaves the element type fixed to the requested
one and the records untouched. -/
theorem setType_ok (rs rs2 : RecordSetR) (t : DataType)
    (h : setType rs t = .ok rs2) :
    rs2.dtype = some t ∧ rs2.recs = rs.recs := by
  obtain ⟨fn, dt, rcs⟩ := rs
  cases dt with
  | none =>
    simp only [setType] at h
    injection h with h2
    subst h2
    exact ⟨rfl, rfl⟩
  | some t0 =>
    simp only [setType] at h
    by_cases ht : t0 = t
    · rw [if_pos ht] at h
      injection h with h2
      subst h2
      exact ⟨by simp [ht], rfl⟩
    · rw [if_neg ht] at h
      exact absurd h (by simp)

/-- SetType with a conflicting element type fails. -/
theorem setType_conflict (rs : RecordSetR) (t t2 : DataType)
    (hd : rs.dtype = some t) (hne : t ≠ t2) :
    setType rs t2 = .error ("conflicting type for field " ++ rs.fieldname) := by
  unfold setType
  rw [hd]
  simp [hne]

/-- The require-then-set-type transformation is a fixpoint on its own
outputs: its output already holds the tag and the type. -/
theorem requireSetType_fix (rs rs2 : RecordSetR) (tag owner : String) (t : DataType)
    (h : setType (requireRecord rs tag owner) t = .ok rs2) :
    setType (requireRecord rs2 tag owner) t = .ok rs2 := by
  obtain ⟨hd, hr⟩ := setType_ok _ _ _ h
  have hmem : tag ∈ rs2.recs.map Prod.fst := by
    rw [hr]
    exact requireRecord_mem rs tag owner
  rw [requireRecord_of_mem rs2 tag owner hmem]
  unfold setType
  rw [hd]
  simp

/-- C6: State.Require is idempotent (a second identical call returns
the registry unchanged), preserves the at-most-one-RecordSet-per-field
invariant of the registry, and fails when a conflicting element type is
later required for the same field. -/
theorem state_require_registry :
    (∀ (d d2 : StateData) (t : DataType) (f tag owner : String),
      stateRequire d t f tag owner = .ok d2 →
      stateRequire d2 t f tag owner = .ok d2) ∧
    (∀ (d d2 : StateData) (t : DataType) (f tag owner : String),
      (d.map Prod.fst).Nodup → stateRequire d t f tag owner = .ok d2 →
      (d2.map Prod.fst).Nodup) ∧
    (∀ (d d2 : StateData) (t t2 : DataType) (f tag owner tag2 owner2 : String),
      t ≠ t2 → stateRequire d t f tag owner = .ok d2 →
      ∃ e, stateRequire d2 t2 f tag2 owner2 = .error e) := by
  refine ⟨?_, ?_, ?_⟩
  · intro d d2 t f tag owner h
    unfold stateRequire at h ⊢
    obtain ⟨v, v2, hl, hf, hl2⟩ := mapAtKey_lookup _ _ _ _ h
    have hk2 : hasKey d2 f = true := lookupKey_hasKey _ _ _ hl2
    rw [if_pos hk2]
    exact mapAtKey_fix _ _ _ _ (fun v v2 hv => requireSetType_fix _ _ _ _ _ hv) h
  · intro d d2 t f tag owner hnd h
    unfold stateRequire at h
    have hkeys := mapAtKey_keys _ _ _ _ h
    by_cases hk : hasKey d f
    · rw [if_pos hk] at hkeys
      rw [hkeys]
      exact hnd
    · rw [if_neg hk] at hkeys
      rw [hkeys]
      rw [List.map_append]
      refine List.Nodup.append hnd (by simp) ?_
      intro a ha hb
      simp only [List.map_cons, List.map_nil, List.mem_singleton] at hb
      rw [hb] at ha
      exact hasKey_false_not_mem d f (by simpa using hk) ha
  · intro d d2 t t2 f tag owner tag2 owner2 hne h
    unfold stateRequire at h
    obtain ⟨v, v2, hl, hf, hl2⟩ := mapAtKey_lookup _ _ _ _ h
    obtain ⟨hd, hr⟩ := setType_ok _ _ _ hf
    have hk2 : hasKey d2 f = true := lookupKey_hasKey _ _ _ hl2
    unfold stateRequire
    rw [if_pos hk2]
    have hdt : (requireRecord v2 tag2 owner2).dtype = some t := by
      rw [requireRecord_dtype]
      exact hd
    have herr := setType_conflict (requireRecord v2 tag2 owner2) t t2 hdt hne
    exact ⟨_, mapAtKey_error_of_lookup _ _ _ _ _ hl2 herr⟩

/-- Witness for C6 on a registry holding one double-typed field. -/
theorem state_require_registry_witness :
    stateRequire [("pressure", ⟨"pressure", some DataType.tDouble, [("", "flow")]⟩)]
      DataType.tDouble "pressure" "" "flow"
      = .ok [("pressure", ⟨"pressure", some DataType.tDouble, [("", "flow")]⟩)] ∧
    ([("pressure", (⟨"pressure", some DataType.tDouble, [("", "flow")]⟩ : RecordSetR))].map
      Prod.fst).Nodup ∧
    (∃ e, stateRequire [("pressure", ⟨"pressure", some DataType.tDouble, [("", "flow")]⟩)]
      DataType.tInt "pressure" "" "flow" = .error e) := by
  have h0 : stateRequire [] DataType.tDouble "pressure" "" "flow"
      = .ok [("pressure", ⟨"pressure", some DataType.tDouble, [("", "flow")]⟩)] := by
    rfl
  refine ⟨state_require_registry.1 _ _ _ _ _ _ h0,
    state_require_registry.2.1 _ _ _ _ _ _ (by simp) h0,
    state_require_registry.2.2 _ _ _ DataType.tInt _ _ _ _ _ (by decide) h0⟩

/-- A successful field lookup through data_.at. -/
theorem findRecordSet_ok (d : KeyedList (RecordSetV α)) (f : String)
    (rs : RecordSetV α) (h : findRecordSet d f = .ok rs) :
    lookupKey d f = some rs := by
  unfold findRecordSet at h
  cases hlk : lookupKey d f with
  | none => rw [hlk] at h; exact absurd h (by simp)
  | some rs2 =>
    rw [hlk] at h
    injection h with h2
    rw [h2]

/-- C7: for every registered field and record, mutable access through
GetW, GetRecordW or Set with an owner different from the registered one
fails with the fatal ownership violation; read-only Get takes no owner
and returns the value; and every write path succeeds only with the
matching owner. -/
theorem state_ownership_enforced :
    (∀ (α : Type) (d : KeyedList (RecordSetV α)) (f tag owner : String)
        (rs : RecordSetV α) (r : RecordR α),
      findRecordSet d f = .ok rs → getRecord rs tag = .ok r → owner ≠ r.owner →
      stateGetW d f tag owner = .error ("ownership violation: " ++ owner) ∧
      stateGetRecordW d f tag owner = .error ("ownership violation: " ++ owner) ∧
      ∀ v : α, stateSet d f tag owner v = .error ("ownership violation: " ++ owner)) ∧
    (∀ (α : Type) (d : KeyedList (RecordSetV α)) (f tag : String)
        (rs : RecordSetV α) (r : RecordR α),
      findRecordSet d f = .ok rs → getRecord rs tag = .ok r →
      stateGet d f tag = .ok r.value) ∧
    (∀ (α : Type) (d d2 : KeyedList (RecordSetV α)) (f tag owner : String) (v : α)
        (rs : RecordSetV α) (r : RecordR α),
      findRecordSet d f = .ok rs → getRecord rs tag = .ok r →
      stateSet d f tag owner v = .ok d2 → owner = r.owner) ∧
    (∀ (α : Type) (d : KeyedList (RecordSetV α)) (f tag owner : String)
        (rs : RecordSetV α) (r : RecordR α),
      findRecordSet d f = .ok rs → getRecord rs tag = .ok r →
      (∃ v, stateGetW d f tag owner = .ok v) → owner = r.owner) := by
  refine ⟨?_, ?_, ?_, ?_⟩
  · intro α d f tag owner rs r hfs hgr hno
    have ho : assertOwnerOrDie r owner = .error ("ownership violation: " ++ owner) := by
      unfold assertOwnerOrDie
      rw [if_neg hno]
    refine ⟨?_, ?_, ?_⟩
    · simp [stateGetW, hfs, recordSetGetW, hgr, ho]
    · simp [stateGetRecordW, hfs, hgr, ho]
    · intro v
      have hss : recordSetSet rs tag owner v
          = .error ("ownership violation: " ++ owner) := by
        simp [recordSetSet, hgr, ho]
      exact mapAtKey_error_of_lookup _ _ _ _ _ (findRecordSet_ok _ _ _ hfs) hss
  · intro α d f tag rs r hfs hgr
    simp [stateGet, hfs, recordSetGet, hgr]
  · intro α d d2 f tag owner v rs r hfs hgr hset
    obtain ⟨v1, v2, hl2, hfv, _⟩ := mapAtKey_lookup _ _ _ _ hset
    rw [findRecordSet_ok _ _ _ hfs] at hl2
    injection hl2 with he
    subst he
    simp only [recordSetSet, hgr] at hfv
    by_cases ho : owner = r.owner
    · exact ho
    · simp [assertOwnerOrDie, ho] at hfv
  · intro α d f tag owner rs r hfs hgr hok
    obtain ⟨v, hok⟩ := hok
    simp only [stateGetW, hfs] at hok
    simp only [recordSetGetW, hgr] at hok
    by_cases ho : owner = r.owner
    · exact ho
    · simp [assertOwnerOrDie, ho] at hok

/-- Witness for C7 on a one-field registry owned by flow: a write as
other fails on every mutable path and the read-only path succeeds. -/
theorem state_ownership_enforced_witness :
    stateGetW [("p", RecordSetV.mk "p" [("", RecordR.mk "flow" true (3 : ℚ))])]
      "p" "" "other" = .error ("ownership violation: " ++ "other") ∧
    stateGetRecordW [("p", RecordSetV.mk "p" [("", RecordR.mk "flow" true (3 : ℚ))])]
      "p" "" "other" = .error ("ownership violation: " ++ "other") ∧
    stateSet [("p", RecordSetV.mk "p" [("", RecordR.mk "flow" true (3 : ℚ))])]
      "p" "" "other" (5 : ℚ) = .error ("ownership violation: " ++ "other") ∧
    stateGet [("p", RecordSetV.mk "p" [("", RecordR.mk "flow" true (3 : ℚ))])]
      "p" "" = .ok (3 : ℚ) := by
  have h := state_ownership_enforced.1 ℚ
    [("p", RecordSetV.mk "p" [("", RecordR.mk "flow" true (3 : ℚ))])]
    "p" "" "other" (RecordSetV.mk "p" [("", RecordR.mk "flow" true (3 : ℚ))])
    (RecordR.mk "flow" true (3 : ℚ)) rfl rfl (by decide)
  exact ⟨h.1, h.2.1, h.2.2 5, state_ownership_enforced.2.1 ℚ
    [("p", RecordSetV.mk "p" [("", RecordR.mk "flow" true (3 : ℚ))])]
    "p" "" (RecordSetV.mk "p" [("", RecordR.mk "flow" true (3 : ℚ))])
    (RecordR.mk "flow" true (3 : ℚ)) rfl rfl⟩

/-- C3: in the dependency graph A = 2B + CEH, C = 2D + G, E = DF,
H = 2F, D = 2G, F = 2G with primaries B = 2 and G = 3, Update on A
computes A = 6484 (recomputing the intermediate D = 6), and the
derivative updates yield dA/dB = 2, dA/dG = 8640 and dE/dG = 24, each
reported as changed. -/
theorem dag_update_and_derivatives :
    dagStep1.1 = true ∧ dagStep1.2.val .fa = 6484 ∧ dagStep1.2.val .fd = 6 ∧
    dagStep2.1 = true ∧ dagStep2.2.dval .fa .fb = 2 ∧
    dagStep3.1 = true ∧ dagStep3.2.dval .fa .fg = 8640 ∧
    dagStep4.1 = true ∧ dagStep4.2.dval .fe .fg = 24 := by
  decide

/-- C4: repeating UpdateDerivative(A, wrt G) with no primary changed
reports changed = false and keeps the stored 8640; after SetChanged on
the primary B (with no value change) the next call reports
changed = true while the stored derivative is still 8640. -/
theorem dag_derivative_caching :
    dagStep5.1 = false ∧ dagStep5.2.dval .fa .fg = 8640 ∧
    dagStep6.1 = true ∧ dagStep6.2.dval .fa .fg = 8640 := by
  decide
